import Mathlib

/-!
Verification of the BFT finality engine (package `bft`): a shallow embedding of
the engine's public operations (`Finalized`, `Accepts`, `Select`, `CommitBlock`,
`GetVote`) and of `computeState`, `findCheckpointByQuality`, `getQuality` and the
checkpoint arithmetic, together with theorems settling the specification's
claims about them.

Machine integers of the source (`uint32` block numbers and qualities) are
modelled as `Nat`, with an explicit `% 2 ^ 32` at the spots where the Go
arithmetic can wrap.  Stateful code (the engine's caches, the durable key-value
store, the atomic finalized pointer, the casts ledger) is modelled by explicit
state passing over `EngineState`; fallible operations return `Except Err` or an
`Option Err` paired with the post-state.  Collaborators that are out of scope
for the engine (the chain repository and the state store) are parameters of the
embedding, gathered in `Env`.
-/

set_option maxHeartbeats 1000000

/-- The wrap of Go `uint32` arithmetic. -/
def wrap32 (n : Nat) : Nat := n % 2 ^ 32

/-- Go `uint32` subtraction `a - b` (two's-complement wraparound). -/
def sub32 (a b : Nat) : Nat := (a + (2 ^ 32 - b % 2 ^ 32)) % 2 ^ 32

/-- `thor.Bytes32`, a 32-byte identifier.  Its first 4 bytes encode the block
number big-endian (`num`); the remaining 28 bytes (`rest`) distinguish blocks
of the same height on competing branches. -/
structure Bytes32 where
  num : Nat
  rest : Nat
deriving DecidableEq, Repr

/-- `block.Number`: extract the block number encoded in the first 4 bytes of an
id.  No I/O is involved. -/
def blockNumber (id : Bytes32) : Nat := id.num

/-- The fields of `block.Header` the engine reads.  `header.Number()` is
`block.Number(header.ID())` in the source, so it is derived, not stored. -/
structure Header where
  id : Bytes32
  parentID : Bytes32
deriving DecidableEq, Repr

/-- `header.Number()`. -/
def Header.number (h : Header) : Nat := blockNumber h.id

/-- Modelled from the spec: the Go type `block.Vote` with its constants `COM`
and `WIT` is not under src/. -/
inductive Vote where
  | COM
  | WIT
deriving DecidableEq, Repr

/-- Modelled from the spec: the Go zero value of `block.Vote` (produced by the
naked `return` in `GetVote` when `st.Quality == 0`).  §4.6.5 step 1 of the spec
fixes this branch's result to `COM`, so the zero value is modelled as `COM`. -/
def Vote.zeroValue : Vote := .COM

/-- Modelled from the spec: the struct `bftState` is not under src/; §3 of the
spec gives `{ quality: u32, justified: bool, committed_at: Option<BlockId> }`.
Field names follow the source's uses (`st.Quality`, `st.Justified`,
`st.CommitAt`). -/
structure BftState where
  quality : Nat
  justified : Bool
  commitAt : Option Bytes32
deriving DecidableEq, Repr

/-- The zero Go struct `bftState{}` returned by `computeState` for blocks
before finality activation. -/
def zeroBftState : BftState := { quality := 0, justified := false, commitAt := none }

/-- Modelled from the spec: one entry of the casts ledger (type `casts` is not
under src/), a `(checkpoint_id, quality)` pair recorded for a packed block. -/
structure Cast where
  checkpoint : Bytes32
  quality : Nat
deriving DecidableEq, Repr

/-- The part of `chain.BlockSummary` the engine reads in `GetVote`. -/
structure Summary where
  header : Header
deriving DecidableEq, Repr

/-- Error values crossing the embedded interfaces.  `checkpointNotFound` and
`qualityNotEqual` are the two `errors.New` values created inside
`findCheckpointByQuality`; the others stand for repository / key-value store
failures produced by the out-of-scope collaborators. -/
inductive Err where
  | notFound
  | ioFail
  | checkpointNotFound
  | qualityNotEqual
  | other (n : Nat)
deriving DecidableEq, Repr

/-- Association-list lookup, the model of map/LRU lookups keyed by `Bytes32`.
The LRUs of the source (≥ 1024 entries) are modelled without eviction; an `Add`
is a cons, so the most recent binding wins. -/
def alookup {α : Type} : List (Bytes32 × α) → Bytes32 → Option α
  | [], _ => none
  | (k, v) :: rest, key => if k = key then some v else alookup rest key

/-- Modelled from the spec: `thor.CheckpointInterval` is not under src/; §3
calls it a fixed power-of-two block count per round.  The concrete value is
irrelevant to every claim; only `0 < CheckpointInterval` is used. -/
def CheckpointInterval : Nat := 256

/-- `getCheckPoint` (source lines 724-726): `blockNum / C * C`.  For
`blockNum < 2 ^ 32` the `uint32` arithmetic cannot wrap, so no `% 2 ^ 32` is
needed. -/
def getCheckPoint (blockNum : Nat) : Nat :=
  blockNum / CheckpointInterval * CheckpointInterval

/-- `isCheckPoint` (source lines 728-730). -/
def isCheckPoint (blockNum : Nat) : Bool :=
  getCheckPoint blockNum == blockNum

/-- `getStorePoint` (source lines 733-735): `getCheckPoint blockNum + C - 1`.
Since `CheckpointInterval` divides `2 ^ 32`, for `blockNum < 2 ^ 32` the
result stays below `2 ^ 32`, so the `uint32` arithmetic cannot wrap. -/
def getStorePoint (blockNum : Nat) : Nat :=
  getCheckPoint blockNum + CheckpointInterval - 1

/-- The engine's mutable state: the atomic finalized pointer, the state and
quality LRUs, the two key families of the durable store (`"finalized"` and the
quality entries), and the lazily initialised casts ledger. -/
structure EngineState where
  finalized : Bytes32
  stateCache : List (Bytes32 × BftState)
  qualityCache : List (Bytes32 × Nat)
  dataFinalized : Option Bytes32
  dataQuality : List (Bytes32 × Nat)
  casts : Option (List Cast)
deriving DecidableEq, Repr

/-- The out-of-scope collaborators of the engine, as parameters: the chain
repository (`getBlockID` is `repo.NewChain(tip).GetBlockID(n)`, `hasBlock` is
`repo.NewChain(tip).HasBlock(id)`, `getBlockSummary`, `bestHeader` is
`repo.BestBlockSummary().Header`), the block layer's opaque total order
`betterThan` (`header.BetterThan`), the casts rebuild `newCasts` (its
definition is not under src/), the justifier walk `summarizeWalk` (the
justifier's definitions are not under src/; it stands for lines 588-630 of
`computeState`), the activation number `finality`
(`engine.forkConfig.FINALITY`), and fault injection for the durable store's two
write sites, modelling `kv` write failures. -/
structure Env where
  finality : Nat
  getBlockID : Bytes32 → Nat → Except Err Bytes32
  hasBlock : Bytes32 → Bytes32 → Except Err Bool
  getBlockSummary : Bytes32 → Except Err Summary
  bestHeader : Header
  betterThan : Header → Header → Bool
  newCasts : Except Err (List Cast)
  summarizeWalk : Header → EngineState → Except Err BftState
  failSaveQuality : Bytes32 → Nat → Bool
  failPutFinalized : Bytes32 → Bool

/-- `Finalized` (source lines 435-437): read the atomic finalized pointer. -/
def Finalized (s : EngineState) : Bytes32 := s.finalized

/-- `Accepts` (source lines 440-452): true iff the finalized checkpoint has
number 0 or lies on the branch ending at `parentID`; a repository error from
`HasBlock` propagates. -/
def Accepts (env : Env) (s : EngineState) (parentID : Bytes32) : Except Err Bool :=
  let finalized := Finalized s
  if blockNumber finalized ≠ 0 then
    match env.hasBlock parentID finalized with
    | .error e => .error e
    | .ok included => if !included then .ok false else .ok true
  else
    .ok true

/-- `computeState` (source lines 579-635): return the cached state if present;
return the zero struct for block number 0 or numbers below the finality
activation (this early return does not touch the cache); otherwise run the
justifier walk (lines 588-630, whose definitions are not under src/, hence the
`Env.summarizeWalk` parameter) and cache the summary under the header's id
(line 632).  The priority-cache bookkeeping for justifiers (lines 593, 633) is
internal to the missing justifier type and observed by no claim, so it is not
modelled. -/
def computeState (env : Env) (s : EngineState) (header : Header) :
    Except Err (BftState × EngineState) :=
  match alookup s.stateCache header.id with
  | some cached => .ok (cached, s)
  | none =>
    if header.number = 0 ∨ header.number < env.finality then
      .ok (zeroBftState, s)
    else
      match env.summarizeWalk header s with
      | .error e => .error e
      | .ok st => .ok (st, { s with stateCache := (header.id, st) :: s.stateCache })

/-- `Select` (source lines 455-472): compare the new header's quality with the
current best header's; on a tie defer to the block layer's total order.  The
LRU insertions done inside `computeState` are not returned: `Select` is a
reader and no claim observes them. -/
def Select (env : Env) (s : EngineState) (header : Header) : Except Err Bool :=
  match computeState env s header with
  | .error e => .error e
  | .ok (newSt, s₁) =>
    match computeState env s₁ env.bestHeader with
    | .error e => .error e
    | .ok (bestSt, _) =>
      if newSt.quality ≠ bestSt.quality then
        .ok (decide (bestSt.quality < newSt.quality))
      else
        .ok (env.betterThan header env.bestHeader)

/-- Modelled from the spec: `loadQuality` (not under src/) reads the durable
quality entry for `id` from the store's quality key family; absent data
surfaces as an error from the underlying `Get` (spec §7, NotFound). -/
def loadQuality (dataQuality : List (Bytes32 × Nat)) (id : Bytes32) : Except Err Nat :=
  match alookup dataQuality id with
  | some q => .ok q
  | none => .error .notFound

/-- Modelled from the spec: `saveQuality` (not under src/) durably puts
`id → quality` into the store's quality key family.  `Env.failSaveQuality`
injects a key-value write failure (spec §5: "on error the LRU is not
poisoned"; §8 Scenario E injects KV write failures). -/
def saveQuality (env : Env) (s : EngineState) (id : Bytes32) (quality : Nat) :
    Except Err EngineState :=
  if env.failSaveQuality id quality then .error .ioFail
  else .ok { s with dataQuality := (id, quality) :: s.dataQuality }

/-- `engine.data.Put(finalizedKey, id[:])` (source line 497), with
`Env.failPutFinalized` injecting a key-value write failure. -/
def putFinalized (env : Env) (s : EngineState) (id : Bytes32) :
    Except Err EngineState :=
  if env.failPutFinalized id then .error .ioFail
  else .ok { s with dataFinalized := some id }

/-- `getQuality` (source lines 710-722): the quality LRU in front of
`loadQuality`, returned together with the engine state after the call.  On a
cache hit the state is unchanged; on a cache miss the source's deferred `Add`
(lines 715-719) memoizes the loaded value into the quality LRU — only when the
load succeeded and only with the value just loaded — which the embedding
threads explicitly. -/
def getQuality (s : EngineState) (id : Bytes32) : Except Err Nat × EngineState :=
  match alookup s.qualityCache id with
  | some cached => (.ok cached, s)
  | none =>
    match loadQuality s.dataQuality id with
    | .error e => (.error e, s)
    | .ok quality =>
      (.ok quality, { s with qualityCache := (id, quality) :: s.qualityCache })

/-- How the quality reads of a checkpoint search may change the engine state:
the persisted quality entries are untouched and the quality LRU has grown only
by memoized pairs — each holding exactly the durably stored quality of a key
that was absent from the cache (`getQuality` adds only on a miss and only the
value just loaded). -/
def memoExt (s t : EngineState) : Prop :=
  t.dataQuality = s.dataQuality ∧
  ∃ ms, t.qualityCache = ms ++ s.qualityCache ∧
    ∀ p ∈ ms, alookup s.dataQuality p.1 = some p.2 ∧ alookup s.qualityCache p.1 = none

/-- Agreement on every engine-state component except the quality LRU: what a
checkpoint search leaves untouched. -/
def sameButQualityCache (s t : EngineState) : Prop :=
  t.finalized = s.finalized ∧ t.stateCache = s.stateCache ∧
  t.dataFinalized = s.dataFinalized ∧ t.dataQuality = s.dataQuality ∧ t.casts = s.casts

/-- The loop of Go's `sort.Search` (binary search, invoked at source line 661)
over a stateful probe: the engine state is threaded through the probes (whose
quality reads memoize into the LRU), and an error raised by a probe aborts the
search with the state reached so far, modelling the `panic`/`recover` pair of
lines 639-668 (mutations made by completed probes survive the panic). -/
def searchLoopE (f : Nat → EngineState → Except Err Bool × EngineState)
    (i j : Nat) (s : EngineState) : Except Err Nat × EngineState :=
  if h : i < j then
    let m := (i + j) / 2
    match f m s with
    | (.error e, s₁) => (.error e, s₁)
    | (.ok true, s₁) => searchLoopE f i m s₁
    | (.ok false, s₁) => searchLoopE f (m + 1) j s₁
  else
    (.ok i, s)
termination_by j - i
decreasing_by
  · omega
  · omega

/-- Go `sort.Search n f` with the engine state threaded through the probes. -/
def sortSearchE (n : Nat) (f : Nat → EngineState → Except Err Bool × EngineState)
    (s : EngineState) : Except Err Nat × EngineState :=
  searchLoopE f 0 n s

/-- The effective lower bound of the checkpoint search (source lines 646-649):
the finalized block's number, or the checkpoint of the activation number when
the finalized block is the genesis. -/
def searchStartOf (env : Env) (finalized : Bytes32) : Nat :=
  if blockNumber finalized = 0 then getCheckPoint env.finality else blockNumber finalized

/-- The candidate-checkpoint count `n` of `findCheckpointByQuality` (source
line 660): `int((block.Number(parentID) + 1 - searchStart) / CheckpointInterval)`
with the `uint32` addition and subtraction wrapping as in Go. -/
def nCandidates (env : Env) (finalized parentID : Bytes32) : Nat :=
  sub32 (wrap32 (blockNumber parentID + 1)) (searchStartOf env finalized) / CheckpointInterval

/-- The closure `get` of `findCheckpointByQuality` (source lines 652-658),
extracted as a function of its captures: fetch the block id at the `i`-th
candidate's store point on the branch of `parentID`, then its quality, with
`getQuality`'s memoization threaded through the state.  The index arithmetic
follows the source's `uint32` operations
(`searchStart + uint32(i)*thor.CheckpointInterval`). -/
def fcbqGet (env : Env) (searchStart : Nat) (parentID : Bytes32) (i : Nat)
    (s : EngineState) : Except Err Nat × EngineState :=
  match env.getBlockID parentID
      (getStorePoint (wrap32 (searchStart + wrap32 (i * CheckpointInterval)))) with
  | .error e => (.error e, s)
  | .ok id => getQuality s id

/-- The predicate closure handed to `sort.Search` (source lines 661-668): read
the `i`-th candidate's quality and compare it with the target; an error from
the read becomes the panic that aborts the search. -/
def fcbqProbe (env : Env) (target searchStart : Nat) (parentID : Bytes32)
    (i : Nat) (s : EngineState) : Except Err Bool × EngineState :=
  match fcbqGet env searchStart parentID i s with
  | (.error e, s₁) => (.error e, s₁)
  | (.ok quality, s₁) => (.ok (decide (target ≤ quality)), s₁)

/-- `findCheckpointByQuality` (source lines 638-684): binary-search the
candidate checkpoints between `searchStart` and `parentID`'s number for the
first whose store-point quality reaches `target`; fail if none does or if the
quality found there is not exactly `target`.  The result is paired with the
engine state after the call — the quality LRU grown by the probes'
memoization — which survives even when an error is returned (the recovered
panic of lines 639-644 does not roll the LRU back). -/
def findCheckpointByQuality (env : Env) (s : EngineState) (target : Nat)
    (finalized parentID : Bytes32) : Except Err Bytes32 × EngineState :=
  match sortSearchE (nCandidates env finalized parentID)
      (fcbqProbe env target (searchStartOf env finalized) parentID) s with
  | (.error e, s₁) => (.error e, s₁)
  | (.ok num, s₁) =>
    if num = nCandidates env finalized parentID then (.error .checkpointNotFound, s₁)
    else
      match fcbqGet env (searchStartOf env finalized) parentID num s₁ with
      | (.error e, s₂) => (.error e, s₂)
      | (.ok quality, s₂) =>
        if quality ≠ target then (.error .qualityNotEqual, s₂)
        else (env.getBlockID parentID
          (wrap32 (searchStartOf env finalized + wrap32 (num * CheckpointInterval))), s₂)

/-- The "save quality if needed" step of `CommitBlock` (source lines 481-488):
at a store point, durably put the quality first and only then add it to the
quality LRU. -/
def commitQualityStep (env : Env) (s : EngineState) (header : Header)
    (st : BftState) : Option Err × EngineState :=
  if getStorePoint header.number = header.number then
    match saveQuality env s header.id st.quality with
    | .error e => (some e, s)
    | .ok s₁ => (none, { s₁ with qualityCache := (header.id, st.quality) :: s₁.qualityCache })
  else
    (none, s)

/-- The "update finalized if new block commits this round" step of
`CommitBlock` (source lines 490-501): when the state commits at this very
header with quality above 1, locate the checkpoint of quality `st.quality - 1`,
durably put the finalized key, and only then move the in-memory pointer. -/
def commitFinalizeStep (env : Env) (s : EngineState) (header : Header)
    (st : BftState) : Option Err × EngineState :=
  match st.commitAt with
  | some commitID =>
    if header.id = commitID ∧ 1 < st.quality then
      match findCheckpointByQuality env s (st.quality - 1) (Finalized s) header.id with
      | (.error e, s₁) => (some e, s₁)
      | (.ok id, s₁) =>
        match putFinalized env s₁ id with
        | .error e => (some e, s₁)
        | .ok s₂ => (none, { s₂ with finalized := id })
    else
      (none, s)
  | none => (none, s)

/-- The "mark voted if packing" step of `CommitBlock` (source lines 503-510):
look up the round's checkpoint id on the header's branch and record the cast.
`casts.Mark` (not under src/) appends the `(checkpoint, quality)` pair per spec
§4.5; a yet-uninitialised ledger stays uninitialised apart from the append. -/
def commitPackStep (env : Env) (s : EngineState) (header : Header)
    (st : BftState) (isPacking : Bool) : Option Err × EngineState :=
  if isPacking then
    match env.getBlockID header.id (getCheckPoint header.number) with
    | .error e => (some e, s)
    | .ok checkpoint =>
      (none, { s with casts := some ((s.casts.getD []) ++ [⟨checkpoint, st.quality⟩]) })
  else
    (none, s)

/-- `CommitBlock` (source lines 475-513).  The result pairs Go's returned
`error` (`none` means nil) with the engine state after the call, so that
mutations surviving an error are observable.  Line 478 of the source returns
`nil` when `computeState` fails: the embedding reproduces that faithfully. -/
def CommitBlock (env : Env) (s : EngineState) (header : Header)
    (isPacking : Bool) : Option Err × EngineState :=
  match computeState env s header with
  | .error _ => (none, s)
  | .ok (st, s₁) =>
    match commitQualityStep env s₁ header st with
    | (some e, s₂) => (some e, s₂)
    | (none, s₂) =>
      match commitFinalizeStep env s₂ header st with
      | (some e, s₃) => (some e, s₃)
      | (none, s₃) => commitPackStep env s₃ header st isPacking

/-- Modelled from the spec: `casts.Slice(finalized)` (not under src/) prunes
entries whose checkpoint number is at or below the finalized number and yields
the remainder (spec §4.5). -/
def castsSlice (casts : List Cast) (finalized : Bytes32) : List Cast :=
  casts.filter (fun c => blockNumber finalized < blockNumber c.checkpoint)

/-- The anti-equivocation loop of `GetVote` (source lines 560-575): for each
retained cast, order the cast's checkpoint and the most recent justified
checkpoint by block number, test ancestry on the repository, and vote `WIT`
when the two conflict at adjacent-or-equal quality.  `theQuality` is at least 1
here (the quality-zero branch returned earlier), so the Nat subtraction in
`theQuality - 1` agrees with the source's `uint32` one. -/
def voteLoop (env : Env) (cs : List Cast) (recentJC : Bytes32)
    (theQuality : Nat) : Except Err Vote :=
  match cs with
  | [] => .ok .COM
  | cast :: rest =>
    let xy :=
      if blockNumber recentJC < blockNumber cast.checkpoint then
        (cast.checkpoint, recentJC)
      else
        (recentJC, cast.checkpoint)
    match env.hasBlock xy.1 xy.2 with
    | .error e => .error e
    | .ok includes =>
      if !includes ∧ theQuality - 1 ≤ cast.quality then .ok .WIT
      else voteLoop env rest recentJC theQuality

/-- `GetVote` (source lines 517-576): lazily initialise the casts ledger, fetch
the parent summary, compute its state; quality 0 hits the naked `return`
(yielding `Vote.zeroValue`); otherwise locate the most recent justified
checkpoint and run the anti-equivocation loop.  Go pairs a vote value with
every non-nil error; the embedding's `Except` keeps only the error, which is
all any claim observes. -/
def GetVote (env : Env) (s : EngineState) (parentID : Bytes32) : Except Err Vote :=
  match (match s.casts with
         | none => env.newCasts
         | some cs => .ok cs) with
  | .error e => .error e
  | .ok casts =>
    match env.getBlockSummary parentID with
    | .error e => .error e
    | .ok sum =>
      match computeState env s sum.header with
      | .error e => .error e
      | .ok (st, s₁) =>
        if st.quality = 0 then .ok Vote.zeroValue
        else
          let finalized := Finalized s
          let theQuality := st.quality
          match (if st.justified then
                   (env.getBlockID parentID (getCheckPoint (blockNumber parentID)), s₁)
                 else
                   findCheckpointByQuality env s₁ theQuality finalized parentID) with
          | (.error e, _) => .error e
          | (.ok recentJC, _) => voteLoop env (castsSlice casts finalized) recentJC theQuality

/-!
Concrete fixtures used by witnesses and counterexamples: a base environment
whose collaborators fail on every request, an empty engine state, and per-claim
instantiations of chains, stored qualities and injected faults.
-/

/-- A base environment: every repository and store request fails, no fault is
injected into the durable writes, and the justifier walk fails (claims
exercise it only where it is unreachable or overridden). -/
def envBase : Env where
  finality := 0
  getBlockID := fun _ _ => .error .notFound
  hasBlock := fun _ _ => .error .notFound
  getBlockSummary := fun _ => .error .notFound
  bestHeader := ⟨⟨0, 0⟩, ⟨0, 0⟩⟩
  betterThan := fun _ _ => false
  newCasts := .ok []
  summarizeWalk := fun _ _ => .error .notFound
  failSaveQuality := fun _ _ => false
  failPutFinalized := fun _ => true

/-- A freshly initialised engine state with the given finalized pointer, empty
caches and store, and an initialised empty casts ledger. -/
def emptyState (finalized : Bytes32) : EngineState where
  finalized := finalized
  stateCache := []
  qualityCache := []
  dataFinalized := none
  dataQuality := []
  casts := some []

/-- Environment for the C1 evaluation: activation at 3, and a justifier walk
that fails, so `computeState` fails on any uncached post-activation header. -/
def c1Env : Env := { envBase with finality := 3 }

def c1State : EngineState := emptyState ⟨0, 0⟩

def c1Header : Header := ⟨⟨5, 1⟩, ⟨4, 1⟩⟩

/-- Environment for the C9 instances: activation at block 100. -/
def c9Env : Env := { envBase with finality := 100 }

def c9Header : Header := ⟨⟨5, 0⟩, ⟨4, 0⟩⟩

/-- Environment for the C4 witness: the summary of any parent is a header at
block 5, below the activation number 10, so its computed state has quality 0. -/
def c4Env : Env :=
  { envBase with finality := 10, getBlockSummary := fun _ => .ok ⟨⟨⟨5, 0⟩, ⟨4, 0⟩⟩⟩ }

/-- Environment for the C7 witness: the current best header is the block with
id `⟨9, 2⟩`. -/
def c7Env : Env := { envBase with bestHeader := ⟨⟨9, 2⟩, ⟨8, 0⟩⟩ }

/-- State for the C7 witness: the state cache holds quality 3 for the new
header's id and quality 2 for the best header's id. -/
def c7State : EngineState :=
  { emptyState ⟨0, 0⟩ with
    stateCache := [(⟨9, 1⟩, ⟨3, true, none⟩), (⟨9, 2⟩, ⟨2, false, none⟩)] }

/-- Environment for the C5 witness: the ancestry check always fails with an
I/O error. -/
def c5Env : Env := { envBase with hasBlock := fun _ _ => .error .ioFail }

/-- State for the C8 witness: the cached state of the store-point header
`⟨255, 3⟩` has quality 1 and no commit. -/
def c8State : EngineState :=
  { emptyState ⟨0, 0⟩ with stateCache := [(⟨255, 3⟩, ⟨1, true, none⟩)] }

def c8Header : Header := ⟨⟨255, 3⟩, ⟨254, 0⟩⟩

/-- Environment for the C3 witness: a branch whose store points 511 and 767
and checkpoint 512 resolve to concrete ids; durable writes succeed. -/
def c3Env : Env :=
  { envBase with
    failPutFinalized := fun _ => false,
    getBlockID := fun _ n =>
      if n = 511 then .ok ⟨511, 1⟩
      else if n = 767 then .ok ⟨767, 1⟩
      else if n = 512 then .ok ⟨512, 9⟩
      else .error .notFound }

/-- State for the C2/C3 witnesses: finalized at block 256; the committing
header `⟨767, 7⟩` has cached state `{quality 2, justified, commit at itself}`;
stored qualities are 0 at store point 511 and 1 at store point 767. -/
def c3State : EngineState :=
  { emptyState ⟨256, 0⟩ with
    stateCache := [(⟨767, 7⟩, ⟨2, true, some ⟨767, 7⟩⟩)],
    dataQuality := [(⟨511, 1⟩, 0), (⟨767, 1⟩, 1)] }

def c3Header : Header := ⟨⟨767, 7⟩, ⟨766, 0⟩⟩

/-- The state after the C3 witness run: quality 2 persisted and cached for the
store-point header, the finalized pointer durably advanced to `⟨512, 9⟩`. -/
def c3Final : EngineState :=
  { finalized := ⟨512, 9⟩,
    stateCache := [(⟨767, 7⟩, ⟨2, true, some ⟨767, 7⟩⟩)],
    qualityCache := [(⟨511, 1⟩, 0), (⟨767, 1⟩, 1), (⟨767, 7⟩, 2)],
    dataFinalized := some ⟨512, 9⟩,
    dataQuality := [(⟨767, 7⟩, 2), (⟨511, 1⟩, 0), (⟨767, 1⟩, 1)],
    casts := some [] }

/-- Environment for the C2 witness: as `c3Env` but the durable write of the
finalized key fails. -/
def c2Env : Env := { c3Env with failPutFinalized := fun _ => true }

/-- The intermediate state of the C2 witness, after the quality entry for
`⟨767, 7⟩` was persisted and cached but before the finalized update. -/
def c2Mid : EngineState :=
  { emptyState ⟨256, 0⟩ with
    stateCache := [(⟨767, 7⟩, ⟨2, true, some ⟨767, 7⟩⟩)],
    qualityCache := [(⟨767, 7⟩, 2)],
    dataQuality := [(⟨767, 7⟩, 2), (⟨511, 1⟩, 0), (⟨767, 1⟩, 1)] }

/-- The state after the C2 witness's checkpoint search: the probes memoized
the two candidate store-point qualities into the quality LRU. -/
def c2SearchEnd : EngineState :=
  { emptyState ⟨256, 0⟩ with
    stateCache := [(⟨767, 7⟩, ⟨2, true, some ⟨767, 7⟩⟩)],
    qualityCache := [(⟨511, 1⟩, 0), (⟨767, 1⟩, 1), (⟨767, 7⟩, 2)],
    dataQuality := [(⟨767, 7⟩, 2), (⟨511, 1⟩, 0), (⟨767, 1⟩, 1)] }

/-- Environment for the C6 witness: two candidate rounds with store points at
255 and 511 and the round-1 checkpoint at 256. -/
def c6Env : Env :=
  { envBase with
    getBlockID := fun _ n =>
      if n = 255 then .ok ⟨255, 0⟩
      else if n = 511 then .ok ⟨511, 0⟩
      else if n = 256 then .ok ⟨256, 0⟩
      else .error .notFound }

/-- State for the C6 witness: stored qualities 1 and 2 at the two candidate
store points. -/
def c6State : EngineState :=
  { emptyState ⟨0, 0⟩ with dataQuality := [(⟨255, 0⟩, 1), (⟨511, 0⟩, 2)] }

/-- `computeState` only ever touches the state cache: every other component of
the engine state is returned unchanged. -/
theorem computeState_ok_state (env : Env) (s : EngineState) (header : Header)
    (st : BftState) (s₁ : EngineState)
    (h : computeState env s header = .ok (st, s₁)) :
    s₁.finalized = s.finalized ∧ s₁.qualityCache = s.qualityCache ∧
      s₁.dataQuality = s.dataQuality ∧ s₁.dataFinalized = s.dataFinalized ∧
      s₁.casts = s.casts := by
  unfold computeState at h
  split at h
  · simp only [Except.ok.injEq, Prod.mk.injEq] at h
    obtain ⟨-, rfl⟩ := h
    exact ⟨rfl, rfl, rfl, rfl, rfl⟩
  · split at h
    · simp only [Except.ok.injEq, Prod.mk.injEq] at h
      obtain ⟨-, rfl⟩ := h
      exact ⟨rfl, rfl, rfl, rfl, rfl⟩
    · split at h
      · cases h
      · simp only [Except.ok.injEq, Prod.mk.injEq] at h
        obtain ⟨-, rfl⟩ := h
        exact ⟨rfl, rfl, rfl, rfl, rfl⟩

/-- The quality-saving step leaves the finalized pointer, the persisted
finalized key, the state cache and the casts ledger alone. -/
theorem commitQualityStep_state (env : Env) (s : EngineState) (header : Header)
    (st : BftState) :
    ((commitQualityStep env s header st).2.finalized = s.finalized ∧
      (commitQualityStep env s header st).2.dataFinalized = s.dataFinalized) ∧
    (commitQualityStep env s header st).2.stateCache = s.stateCache ∧
    (commitQualityStep env s header st).2.casts = s.casts := by
  unfold commitQualityStep saveQuality
  by_cases hsp : getStorePoint header.number = header.number
  · by_cases hf : env.failSaveQuality header.id st.quality
    · simp [hsp, hf]
    · simp [hsp, hf]
  · simp [hsp]

/-- The packing step only appends to the casts ledger: the finalized pointer
and both quality locations are unchanged. -/
theorem commitPackStep_state (env : Env) (s : EngineState) (header : Header)
    (st : BftState) (isPacking : Bool) :
    (commitPackStep env s header st isPacking).2.finalized = s.finalized ∧
    (commitPackStep env s header st isPacking).2.qualityCache = s.qualityCache ∧
    (commitPackStep env s header st isPacking).2.dataQuality = s.dataQuality ∧
    (commitPackStep env s header st isPacking).2.dataFinalized = s.dataFinalized := by
  unfold commitPackStep
  split
  · split
    · simp
    · simp
  · simp

/-- `alookup` over an appended list: the first list wins when it binds the
key. -/
theorem alookup_append {α : Type} (a b : List (Bytes32 × α)) (key : Bytes32) :
    alookup (a ++ b) key =
      (match alookup a key with
       | some v => some v
       | none => alookup b key) := by
  induction a with
  | nil => rfl
  | cons p rest ih =>
    rcases p with ⟨k, v⟩
    by_cases h : k = key
    · simp [alookup, h]
    · simp [alookup, h, ih]

/-- A key absent from an appended list is absent from both parts. -/
theorem alookup_append_none {α : Type} (a b : List (Bytes32 × α)) (key : Bytes32)
    (h : alookup (a ++ b) key = none) : alookup a key = none ∧ alookup b key = none := by
  rw [alookup_append] at h
  cases hm : alookup a key with
  | some w => rw [hm] at h; cases h
  | none => rw [hm] at h; exact ⟨rfl, h⟩

/-- A successful `alookup` exhibits the bound pair as a member of the list. -/
theorem alookup_mem {α : Type} (l : List (Bytes32 × α)) (key : Bytes32) (v : α)
    (h : alookup l key = some v) : (key, v) ∈ l := by
  induction l with
  | nil => cases h
  | cons p rest ih =>
    rcases p with ⟨k, w⟩
    by_cases hk : k = key
    · simp only [alookup, if_pos hk] at h
      cases h
      subst hk
      exact List.mem_cons_self _ _
    · simp only [alookup, if_neg hk] at h
      exact List.mem_cons_of_mem _ (ih h)

/-- `memoExt` is reflexive: no memoization at all. -/
theorem memoExt_refl (s : EngineState) : memoExt s s :=
  ⟨rfl, [], rfl, by simp⟩

/-- A state agreeing with a memo extension on both quality locations is itself
a memo extension. -/
theorem memoExt_of_eq (s t r : EngineState) (h : memoExt s t)
    (hdq : r.dataQuality = t.dataQuality) (hqc : r.qualityCache = t.qualityCache) :
    memoExt s r := by
  obtain ⟨h1, ms, h2, h3⟩ := h
  exact ⟨by rw [hdq, h1], ms, by rw [hqc, h2], h3⟩

/-- Memoization never displaces an existing cache binding: entries present
before a memo extension are still found afterwards (new entries are only added
for keys that missed). -/
theorem memoExt_cache_stable (s t : EngineState) (h : memoExt s t) (key : Bytes32) (v : Nat)
    (hv : alookup s.qualityCache key = some v) :
    alookup t.qualityCache key = some v := by
  obtain ⟨hdq, ms, hqc, hms⟩ := h
  rw [hqc, alookup_append]
  cases hm : alookup ms key with
  | none => simp [hv]
  | some w =>
    have hnone := (hms _ (alookup_mem ms key w hm)).2
    rw [hnone] at hv
    cases hv

/-- `getQuality` touches nothing but the quality LRU. -/
theorem getQuality_state (s : EngineState) (id : Bytes32) :
    (getQuality s id).2.finalized = s.finalized ∧
    (getQuality s id).2.stateCache = s.stateCache ∧
    (getQuality s id).2.dataFinalized = s.dataFinalized ∧
    (getQuality s id).2.dataQuality = s.dataQuality ∧
    (getQuality s id).2.casts = s.casts := by
  unfold getQuality
  cases hm : alookup s.qualityCache id with
  | some cached => exact ⟨rfl, rfl, rfl, rfl, rfl⟩
  | none =>
    cases hl : loadQuality s.dataQuality id with
    | error e => exact ⟨rfl, rfl, rfl, rfl, rfl⟩
    | ok quality => exact ⟨rfl, rfl, rfl, rfl, rfl⟩

/-- The value a quality read returns is stable under memoization: a memo
extension answers every read exactly as the base state would (memoized entries
hold the durably stored value of keys that missed the base cache). -/
theorem getQuality_fst_stable (s t : EngineState) (id : Bytes32) (h : memoExt s t) :
    (getQuality t id).1 = (getQuality s id).1 := by
  obtain ⟨hdq, ms, hqc, hms⟩ := h
  unfold getQuality
  rw [hqc, alookup_append, hdq]
  cases hm : alookup ms id with
  | some w =>
    have hp := hms _ (alookup_mem ms id w hm)
    simp only [hp.2, loadQuality, hp.1]
  | none =>
    cases hs : alookup s.qualityCache id with
    | some w => rfl
    | none => cases hl : loadQuality s.dataQuality id <;> simp [hl]

/-- A quality read at a memo extension yields again a memo extension: the
write-back adds only the durably stored value of a key absent from the base
cache. -/
theorem getQuality_memoExt (s t : EngineState) (id : Bytes32) (h : memoExt s t) :
    memoExt s (getQuality t id).2 := by
  obtain ⟨hdq, ms, hqc, hms⟩ := h
  unfold getQuality
  cases hm : alookup t.qualityCache id with
  | some cached => exact ⟨hdq, ms, hqc, hms⟩
  | none =>
    cases hl : loadQuality t.dataQuality id with
    | error e => exact ⟨hdq, ms, hqc, hms⟩
    | ok quality =>
      have hnone : alookup ms id = none ∧ alookup s.qualityCache id = none := by
        rw [hqc] at hm
        exact alookup_append_none ms s.qualityCache id hm
      have hstored : alookup s.dataQuality id = some quality := by
        unfold loadQuality at hl
        rw [hdq] at hl
        cases hld : alookup s.dataQuality id with
        | none => rw [hld] at hl; cases hl
        | some w => rw [hld] at hl; cases hl; rfl
      refine ⟨hdq, (id, quality) :: ms, by simp [hqc], ?_⟩
      intro p hp
      rcases List.mem_cons.mp hp with hp1 | hp2
      · rw [hp1]
        exact ⟨hstored, hnone.2⟩
      · exact hms _ hp2

/-- The candidate probe touches nothing but the quality LRU. -/
theorem fcbqGet_state (env : Env) (searchStart : Nat) (parentID : Bytes32)
    (i : Nat) (s : EngineState) :
    (fcbqGet env searchStart parentID i s).2.finalized = s.finalized ∧
    (fcbqGet env searchStart parentID i s).2.stateCache = s.stateCache ∧
    (fcbqGet env searchStart parentID i s).2.dataFinalized = s.dataFinalized ∧
    (fcbqGet env searchStart parentID i s).2.dataQuality = s.dataQuality ∧
    (fcbqGet env searchStart parentID i s).2.casts = s.casts := by
  unfold fcbqGet
  cases hg : env.getBlockID parentID
      (getStorePoint (wrap32 (searchStart + wrap32 (i * CheckpointInterval)))) with
  | error e => exact ⟨rfl, rfl, rfl, rfl, rfl⟩
  | ok id => exact getQuality_state s id

/-- The candidate probe maps memo extensions to memo extensions. -/
theorem fcbqGet_memoExt (env : Env) (searchStart : Nat) (parentID : Bytes32)
    (i : Nat) (s t : EngineState) (h : memoExt s t) :
    memoExt s (fcbqGet env searchStart parentID i t).2 := by
  unfold fcbqGet
  cases hg : env.getBlockID parentID
      (getStorePoint (wrap32 (searchStart + wrap32 (i * CheckpointInterval)))) with
  | error e => exact h
  | ok id => exact getQuality_memoExt s t id h

/-- The search predicate is the candidate read with its value compared to the
target and its state passed through unchanged. -/
theorem fcbqProbe_eq (env : Env) (target searchStart : Nat) (parentID : Bytes32)
    (i : Nat) (s : EngineState) :
    (fcbqProbe env target searchStart parentID i s).1
        = Except.map (fun quality => decide (target ≤ quality))
            (fcbqGet env searchStart parentID i s).1 ∧
      (fcbqProbe env target searchStart parentID i s).2
        = (fcbqGet env searchStart parentID i s).2 := by
  unfold fcbqProbe
  rcases hg : fcbqGet env searchStart parentID i s with ⟨v, s₁⟩
  cases v <;> simp [Except.map]

/-- A successful run of the binary-search loop returns an index within the
interval it was started on. -/
theorem searchLoopE_ok_bounds (f : Nat → EngineState → Except Err Bool × EngineState)
    (r : Nat) (t' : EngineState) :
    ∀ i j t, i ≤ j → searchLoopE f i j t = (.ok r, t') → i ≤ r ∧ r ≤ j := by
  intro i j t
  induction i, j, t using searchLoopE.induct f with
  | case1 i j t hij m e s₁ hfm =>
    intro _ hrun
    rw [searchLoopE.eq_def] at hrun
    rw [dif_pos hij] at hrun
    have hm : f ((i + j) / 2) t = (Except.error e, s₁) := hfm
    simp only [hm] at hrun
    cases hrun
  | case2 i j t hij m s₁ hfm ih =>
    intro _ hrun
    rw [searchLoopE.eq_def] at hrun
    rw [dif_pos hij] at hrun
    have hm : f ((i + j) / 2) t = (Except.ok true, s₁) := hfm
    simp only [hm] at hrun
    replace hrun : searchLoopE f i ((i + j) / 2) s₁ = (Except.ok r, t') := hrun
    obtain ⟨h1, h2⟩ := ih (by omega) hrun
    exact ⟨h1, by omega⟩
  | case3 i j t hij m s₁ hfm ih =>
    intro _ hrun
    rw [searchLoopE.eq_def] at hrun
    rw [dif_pos hij] at hrun
    have hm : f ((i + j) / 2) t = (Except.ok false, s₁) := hfm
    simp only [hm] at hrun
    replace hrun : searchLoopE f ((i + j) / 2 + 1) j s₁ = (Except.ok r, t') := hrun
    obtain ⟨h1, h2⟩ := ih (by omega) hrun
    exact ⟨by omega, h2⟩
  | case4 i j t hij =>
    intro hle hrun
    rw [searchLoopE.eq_def] at hrun
    rw [dif_neg hij] at hrun
    simp only [Prod.mk.injEq, Except.ok.injEq] at hrun
    omega

/-- Any property of the engine state preserved by every probe step is
preserved across the whole binary-search loop, whether it ends in success or
in an aborting probe error. -/
theorem searchLoopE_inv (f : Nat → EngineState → Except Err Bool × EngineState)
    (Inv : EngineState → Prop)
    (hf : ∀ k t, Inv t → Inv (f k t).2) :
    ∀ i j t, Inv t → Inv (searchLoopE f i j t).2 := by
  intro i j t
  induction i, j, t using searchLoopE.induct f with
  | case1 i j t hij m e s₁ hfm =>
    intro ht
    rw [searchLoopE.eq_def, dif_pos hij]
    have hm : f ((i + j) / 2) t = (Except.error e, s₁) := hfm
    simp only [hm]
    have := hf ((i + j) / 2) t ht
    rw [hm] at this
    exact this
  | case2 i j t hij m s₁ hfm ih =>
    intro ht
    rw [searchLoopE.eq_def, dif_pos hij]
    have hm : f ((i + j) / 2) t = (Except.ok true, s₁) := hfm
    simp only [hm]
    have h₁ : Inv s₁ := by
      have := hf ((i + j) / 2) t ht
      rw [hm] at this
      exact this
    exact ih h₁
  | case3 i j t hij m s₁ hfm ih =>
    intro ht
    rw [searchLoopE.eq_def, dif_pos hij]
    have hm : f ((i + j) / 2) t = (Except.ok false, s₁) := hfm
    simp only [hm]
    have h₁ : Inv s₁ := by
      have := hf ((i + j) / 2) t ht
      rw [hm] at this
      exact this
    exact ih h₁
  | case4 i j t hij =>
    intro ht
    rw [searchLoopE.eq_def, dif_neg hij]
    exact ht

/-- Correctness of the binary-search loop, matching Go's `sort.Search`
contract for stateful probes: when every probe answers a pure monotone
predicate (at every state satisfying the threaded invariant) and preserves the
invariant, the loop succeeds, its final state satisfies the invariant, and it
returns the least index satisfying the predicate (or the right end when none
does). -/
theorem searchLoopE_found (f : Nat → EngineState → Except Err Bool × EngineState)
    (p : Nat → Bool) (Inv : EngineState → Prop)
    (hmono : ∀ a b, a ≤ b → p a = true → p b = true) :
    ∀ i j t, i ≤ j →
      (∀ k u, Inv u → i ≤ k → k < j → (f k u).1 = .ok (p k) ∧ Inv (f k u).2) →
      Inv t →
      ∃ r t', searchLoopE f i j t = (.ok r, t') ∧ Inv t' ∧ i ≤ r ∧ r ≤ j ∧
        (∀ k, i ≤ k → k < r → p k = false) ∧ (r < j → p r = true) := by
  intro i j t
  induction i, j, t using searchLoopE.induct f with
  | case1 i j t hij m e s₁ hfm =>
    intro _ hf ht
    have hm : f ((i + j) / 2) t = (Except.error e, s₁) := hfm
    have hv := (hf ((i + j) / 2) t ht (by omega) (by omega)).1
    rw [hm] at hv
    cases hv
  | case2 i j t hij m s₁ hfm ih =>
    intro _ hf ht
    have hm : f ((i + j) / 2) t = (Except.ok true, s₁) := hfm
    have hstep := hf ((i + j) / 2) t ht (by omega) (by omega)
    have hpm : p ((i + j) / 2) = true := by
      have hv := hstep.1
      rw [hm] at hv
      exact ((Except.ok.injEq _ _).mp hv).symm
    have hInv₁ : Inv s₁ := by
      have h2 := hstep.2
      rw [hm] at h2
      exact h2
    obtain ⟨r, t', hr, hInv, h1, h2, h3, h4⟩ :=
      ih (by omega) (fun k u hu hk1 hk2 => hf k u hu hk1 (by omega)) hInv₁
    refine ⟨r, t', ?_, hInv, h1, by omega, h3, ?_⟩
    · rw [searchLoopE.eq_def, dif_pos hij]
      simp only [hm]
      exact hr
    · intro _
      rcases Nat.lt_or_ge r ((i + j) / 2) with hlt | hge
      · exact h4 hlt
      · have : r = (i + j) / 2 := by omega
        rw [this]
        exact hpm
  | case3 i j t hij m s₁ hfm ih =>
    intro _ hf ht
    have hm : f ((i + j) / 2) t = (Except.ok false, s₁) := hfm
    have hstep := hf ((i + j) / 2) t ht (by omega) (by omega)
    have hpm : p ((i + j) / 2) = false := by
      have hv := hstep.1
      rw [hm] at hv
      exact ((Except.ok.injEq _ _).mp hv).symm
    have hInv₁ : Inv s₁ := by
      have h2 := hstep.2
      rw [hm] at h2
      exact h2
    obtain ⟨r, t', hr, hInv, h1, h2, h3, h4⟩ :=
      ih (by omega) (fun k u hu hk1 hk2 => hf k u hu (by omega) hk2) hInv₁
    refine ⟨r, t', ?_, hInv, by omega, h2, ?_, h4⟩
    · rw [searchLoopE.eq_def, dif_pos hij]
      simp only [hm]
      exact hr
    · intro k hk1 hk2
      rcases Nat.lt_or_ge k ((i + j) / 2 + 1) with hlt | hge
      · cases hpk : p k with
        | false => rfl
        | true => exact absurd (hmono k ((i + j) / 2) (by omega) hpk) (by simp [hpm])
      · exact h3 k hge hk2
  | case4 i j t hij =>
    intro hle hf ht
    refine ⟨i, t, ?_, ht, Nat.le_refl i, hle, ?_, ?_⟩
    · rw [searchLoopE.eq_def, dif_neg hij]
    · intro k hk1 hk2
      omega
    · intro hij2
      exact absurd hij2 hij

/-- In the wrap-free regime (`searchStart ≤ Number(parentID) + 1 < 2^32`, the
situation of every call made on a branch containing the finalized block), the
source's wrapping `uint32` computation of the candidate count agrees with plain
arithmetic. -/
theorem nCandidates_eq (env : Env) (finalized parentID : Bytes32)
    (hnw : searchStartOf env finalized ≤ blockNumber parentID + 1)
    (hp32 : blockNumber parentID + 1 < 2 ^ 32) :
    nCandidates env finalized parentID =
      (blockNumber parentID + 1 - searchStartOf env finalized) / CheckpointInterval := by
  unfold nCandidates sub32 wrap32 CheckpointInterval
  omega

/-- In the wrap-free regime, the `i`-th candidate's number, as computed with
the source's wrapping `uint32` operations, is `searchStart + i * C` and stays
(with a full round after it) at or below `Number(parentID) + 1`. -/
theorem candidate_no_wrap (start p i : Nat) (hnw : start ≤ p + 1)
    (hp32 : p + 1 < 2 ^ 32) (hi : i < (p + 1 - start) / CheckpointInterval) :
    wrap32 (start + wrap32 (i * CheckpointInterval)) = start + i * CheckpointInterval ∧
      start + i * CheckpointInterval + CheckpointInterval ≤ p + 1 := by
  unfold CheckpointInterval at hi ⊢
  unfold wrap32
  have h1 : (i + 1) * 256 ≤ p + 1 - start := by
    have h2 := (Nat.le_div_iff_mul_le (by omega)).mp (Nat.succ_le_of_lt hi)
    omega
  constructor
  · rw [Nat.mod_eq_of_lt (show i * 256 < 2 ^ 32 by omega),
      Nat.mod_eq_of_lt (by omega)]
  · omega

/-- The probe never touches anything but the quality LRU. -/
theorem fcbqProbe_sameBQC (env : Env) (target searchStart : Nat) (parentID : Bytes32)
    (k : Nat) (s t : EngineState) (h : sameButQualityCache s t) :
    sameButQualityCache s (fcbqProbe env target searchStart parentID k t).2 := by
  have he := (fcbqProbe_eq env target searchStart parentID k t).2
  have hg := fcbqGet_state env searchStart parentID k t
  rw [he]
  obtain ⟨h1, h2, h3, h4, h5⟩ := h
  exact ⟨hg.1.trans h1, hg.2.1.trans h2, hg.2.2.1.trans h3, hg.2.2.2.1.trans h4,
    hg.2.2.2.2.trans h5⟩

/-- The probe maps memo extensions to memo extensions. -/
theorem fcbqProbe_memoExt (env : Env) (target searchStart : Nat) (parentID : Bytes32)
    (k : Nat) (s t : EngineState) (h : memoExt s t) :
    memoExt s (fcbqProbe env target searchStart parentID k t).2 := by
  rw [(fcbqProbe_eq env target searchStart parentID k t).2]
  exact fcbqGet_memoExt env searchStart parentID k s t h

/-- The checkpoint search changes nothing but the quality LRU, also on its
error paths. -/
theorem findCheckpointByQuality_state (env : Env) (s : EngineState) (target : Nat)
    (finalized parentID : Bytes32) :
    sameButQualityCache s (findCheckpointByQuality env s target finalized parentID).2 := by
  unfold findCheckpointByQuality
  have hsearch : sameButQualityCache s
      (sortSearchE (nCandidates env finalized parentID)
        (fcbqProbe env target (searchStartOf env finalized) parentID) s).2 := by
    unfold sortSearchE
    exact searchLoopE_inv _ (sameButQualityCache s)
      (fun k t ht => fcbqProbe_sameBQC env target (searchStartOf env finalized) parentID k s t ht)
      0 (nCandidates env finalized parentID) s ⟨rfl, rfl, rfl, rfl, rfl⟩
  rcases hs : sortSearchE (nCandidates env finalized parentID)
      (fcbqProbe env target (searchStartOf env finalized) parentID) s with ⟨v, s₁⟩
  rw [hs] at hsearch
  cases v with
  | error e => exact hsearch
  | ok num =>
    by_cases hn : num = nCandidates env finalized parentID
    · simp only [if_pos hn]
      exact hsearch
    · simp only [if_neg hn]
      have hget : sameButQualityCache s
          (fcbqGet env (searchStartOf env finalized) parentID num s₁).2 := by
        have hg := fcbqGet_state env (searchStartOf env finalized) parentID num s₁
        obtain ⟨h1, h2, h3, h4, h5⟩ := hsearch
        exact ⟨hg.1.trans h1, hg.2.1.trans h2, hg.2.2.1.trans h3, hg.2.2.2.1.trans h4,
          hg.2.2.2.2.trans h5⟩
      rcases hg2 : fcbqGet env (searchStartOf env finalized) parentID num s₁ with ⟨w, s₂⟩
      rw [hg2] at hget
      cases w with
      | error e => exact hget
      | ok quality =>
        by_cases hq : quality ≠ target
        · simp only [if_pos hq]
          exact hget
        · simp only [if_neg hq]
          exact hget

/-- The state after a checkpoint search is a memo extension of the state
before it: the quality LRU has grown only by write-backs of durably stored
qualities, also on the error paths (the recovered panic does not roll the LRU
back). -/
theorem findCheckpointByQuality_memoExt (env : Env) (s : EngineState) (target : Nat)
    (finalized parentID : Bytes32) :
    memoExt s (findCheckpointByQuality env s target finalized parentID).2 := by
  unfold findCheckpointByQuality
  have hsearch : memoExt s
      (sortSearchE (nCandidates env finalized parentID)
        (fcbqProbe env target (searchStartOf env finalized) parentID) s).2 := by
    unfold sortSearchE
    exact searchLoopE_inv _ (memoExt s)
      (fun k t ht => fcbqProbe_memoExt env target (searchStartOf env finalized) parentID k s t ht)
      0 (nCandidates env finalized parentID) s (memoExt_refl s)
  rcases hs : sortSearchE (nCandidates env finalized parentID)
      (fcbqProbe env target (searchStartOf env finalized) parentID) s with ⟨v, s₁⟩
  rw [hs] at hsearch
  cases v with
  | error e => exact hsearch
  | ok num =>
    by_cases hn : num = nCandidates env finalized parentID
    · simp only [if_pos hn]
      exact hsearch
    · simp only [if_neg hn]
      have hget : memoExt s (fcbqGet env (searchStartOf env finalized) parentID num s₁).2 :=
        fcbqGet_memoExt env (searchStartOf env finalized) parentID num s s₁ hsearch
      rcases hg2 : fcbqGet env (searchStartOf env finalized) parentID num s₁ with ⟨w, s₂⟩
      rw [hg2] at hget
      cases w with
      | error e => exact hget
      | ok quality =>
        by_cases hq : quality ≠ target
        · simp only [if_pos hq]
          exact hget
        · simp only [if_neg hq]
          exact hget

/-- When the repository returns block ids at the numbers they were requested
at, a successful checkpoint search in the wrap-free regime returns an id whose
number is at least the finalized block's number: candidates are probed forward
from the search start. -/
theorem findCheckpointByQuality_ok_ge (env : Env) (s : EngineState) (target : Nat)
    (finalized parentID fid : Bytes32) (s' : EngineState)
    (hsound : ∀ tip n id, env.getBlockID tip n = .ok id → blockNumber id = n)
    (hnw : searchStartOf env finalized ≤ blockNumber parentID + 1)
    (hp32 : blockNumber parentID + 1 < 2 ^ 32)
    (hok : findCheckpointByQuality env s target finalized parentID = (.ok fid, s')) :
    blockNumber finalized ≤ blockNumber fid := by
  unfold findCheckpointByQuality at hok
  split at hok
  · cases hok
  · rename_i num s₁ hs
    split at hok
    · cases hok
    · rename_i hnum
      split at hok
      · cases hok
      · rename_i quality s₂ hq
        split at hok
        · cases hok
        · rename_i hqt
          simp only [Prod.mk.injEq] at hok
          have hgb := hok.1
          unfold sortSearchE at hs
          have hbound := searchLoopE_ok_bounds _ num s₁ 0
            (nCandidates env finalized parentID) s (Nat.zero_le _) hs
          have hnumlt : num < nCandidates env finalized parentID := by omega
          have hw := candidate_no_wrap (searchStartOf env finalized)
            (blockNumber parentID) num hnw hp32
            ((nCandidates_eq env finalized parentID hnw hp32) ▸ hnumlt)
          rw [hw.1] at hgb
          have hid := hsound parentID _ fid hgb
          unfold searchStartOf at hid
          by_cases h0 : blockNumber finalized = 0
          · omega
          · rw [if_neg h0] at hid
            omega

/-- The finalize step leaves the persisted quality entries, the state cache
and the casts ledger alone (the quality LRU may grow by the search's
memoization, see `commitFinalizeStep_memoExt`). -/
theorem commitFinalizeStep_state (env : Env) (s : EngineState) (header : Header)
    (st : BftState) :
    (commitFinalizeStep env s header st).2.dataQuality = s.dataQuality ∧
    (commitFinalizeStep env s header st).2.stateCache = s.stateCache ∧
    (commitFinalizeStep env s header st).2.casts = s.casts := by
  unfold commitFinalizeStep
  split
  · split
    · rcases hfc : findCheckpointByQuality env s (st.quality - 1) (Finalized s) header.id
        with ⟨v, s₁⟩
      have hst := findCheckpointByQuality_state env s (st.quality - 1) (Finalized s) header.id
      rw [hfc] at hst
      cases v with
      | error e => exact ⟨hst.2.2.2.1, hst.2.1, hst.2.2.2.2⟩
      | ok id =>
        unfold putFinalized
        by_cases hf : env.failPutFinalized id
        · simp only [if_pos hf]
          exact ⟨hst.2.2.2.1, hst.2.1, hst.2.2.2.2⟩
        · simp only [if_neg hf]
          exact ⟨hst.2.2.2.1, hst.2.1, hst.2.2.2.2⟩
    · exact ⟨rfl, rfl, rfl⟩
  · exact ⟨rfl, rfl, rfl⟩

/-- Across the finalize step the quality locations change only by the search's
memoization of durably stored qualities. -/
theorem commitFinalizeStep_memoExt (env : Env) (s : EngineState) (header : Header)
    (st : BftState) :
    memoExt s (commitFinalizeStep env s header st).2 := by
  unfold commitFinalizeStep
  split
  · split
    · rcases hfc : findCheckpointByQuality env s (st.quality - 1) (Finalized s) header.id
        with ⟨v, s₁⟩
      have hme := findCheckpointByQuality_memoExt env s (st.quality - 1) (Finalized s) header.id
      rw [hfc] at hme
      cases v with
      | error e => exact hme
      | ok id =>
        unfold putFinalized
        by_cases hf : env.failPutFinalized id
        · simp only [if_pos hf]
          exact hme
        · simp only [if_neg hf]
          exact memoExt_of_eq s s₁ _ hme rfl rfl
    · exact memoExt_refl s
  · exact memoExt_refl s

/-- Across the finalize step the in-memory finalized pointer never moves to a
lower block number (wrap-free regime, number-sound repository). -/
theorem commitFinalizeStep_finalized_ge (env : Env) (s : EngineState)
    (header : Header) (st : BftState)
    (hsound : ∀ tip n id, env.getBlockID tip n = .ok id → blockNumber id = n)
    (hnw : searchStartOf env (Finalized s) ≤ blockNumber header.id + 1)
    (hp32 : blockNumber header.id + 1 < 2 ^ 32) :
    blockNumber s.finalized ≤ blockNumber (commitFinalizeStep env s header st).2.finalized := by
  unfold commitFinalizeStep
  split
  · split
    · rcases hfc : findCheckpointByQuality env s (st.quality - 1) (Finalized s) header.id
        with ⟨v, s₁⟩
      have hst := findCheckpointByQuality_state env s (st.quality - 1) (Finalized s) header.id
      rw [hfc] at hst
      cases v with
      | error e =>
        have hfin : s₁.finalized = s.finalized := hst.1
        simp [hfin]
      | ok id =>
        unfold putFinalized
        by_cases hf : env.failPutFinalized id
        · simp only [if_pos hf]
          have hfin : s₁.finalized = s.finalized := hst.1
          simp [hfin]
        · simp only [if_neg hf]
          exact findCheckpointByQuality_ok_ge env s _ (Finalized s) header.id id s₁
            hsound hnw hp32 hfc
    · exact Nat.le_refl _
  · exact Nat.le_refl _

/-- The state after `CommitBlock` persists exactly the quality entries written
by the quality-saving step, and its quality LRU is a memo extension of the
state that step produced: the finalize-step search only memoizes durably
stored qualities, and the packing step touches neither quality location. -/
theorem commitBlock_quality_after (env : Env) (s : EngineState) (header : Header)
    (isPacking : Bool) (st : BftState) (s₁ : EngineState)
    (hcs : computeState env s header = .ok (st, s₁)) :
    (CommitBlock env s header isPacking).2.dataQuality =
        (commitQualityStep env s₁ header st).2.dataQuality ∧
      memoExt (commitQualityStep env s₁ header st).2 (CommitBlock env s header isPacking).2 := by
  unfold CommitBlock
  simp only [hcs]
  rcases hq : commitQualityStep env s₁ header st with ⟨e1, s₂⟩
  cases e1 with
  | none =>
    simp only [hq]
    rcases hz : commitFinalizeStep env s₂ header st with ⟨e2, s₃⟩
    have hzs := commitFinalizeStep_state env s₂ header st
    have hzm := commitFinalizeStep_memoExt env s₂ header st
    rw [hz] at hzs hzm
    cases e2 with
    | none =>
      simp only [hz]
      have hps := commitPackStep_state env s₃ header st isPacking
      constructor
      · exact hps.2.2.1.trans hzs.1
      · exact memoExt_of_eq s₂ s₃ _ hzm hps.2.2.1 hps.2.1
    | some e =>
      simp only [hz]
      exact ⟨hzs.1, hzm⟩
  | some e =>
    simp only [hq]
    exact ⟨trivial, memoExt_refl s₂⟩

/-- The witness repository `c3Env` hands out block ids exactly at the numbers
they were requested at. -/
theorem c3Env_getBlockID_sound :
    ∀ tip n id, c3Env.getBlockID tip n = .ok id → blockNumber id = n := by
  intro tip n id h
  simp only [c3Env, envBase] at h
  split at h
  · cases h
    simp only [blockNumber]
    omega
  · split at h
    · cases h
      simp only [blockNumber]
      omega
    · split at h
      · cases h
        simp only [blockNumber]
        omega
      · cases h

/-- Claim C1 (code bug): for every header, an error from the state computation
inside `CommitBlock` should propagate to the caller, but source line 478
returns `nil` in the error branch.  At this concrete input `computeState`
fails with `notFound`, yet `CommitBlock` returns success with the engine state
untouched. -/
theorem commitBlock_swallows_computeState_error :
    computeState c1Env c1State c1Header = .error .notFound ∧
      CommitBlock c1Env c1State c1Header false = (none, c1State) :=
  ⟨rfl, rfl⟩

/-- Claim C2: for every header whose computed state commits at the header
itself with quality above 1, if the durable write of the finalized key fails
during `CommitBlock`, the call returns the error and the value of `Finalized`
is unchanged: the in-memory pointer is updated only after the persistent write
succeeds. -/
theorem commitBlock_finalized_put_fail (env : Env) (s : EngineState) (header : Header)
    (isPacking : Bool) (st : BftState) (s₁ s₂ s₃ : EngineState) (fid : Bytes32)
    (hcs : computeState env s header = .ok (st, s₁))
    (hq : commitQualityStep env s₁ header st = (none, s₂))
    (hca : st.commitAt = some header.id)
    (hq1 : 1 < st.quality)
    (hfc : findCheckpointByQuality env s₂ (st.quality - 1) (Finalized s₂) header.id =
      (.ok fid, s₃))
    (hpf : env.failPutFinalized fid = true) :
    (CommitBlock env s header isPacking).1 = some .ioFail ∧
      Finalized (CommitBlock env s header isPacking).2 = Finalized s := by
  have hrun : CommitBlock env s header isPacking = (some .ioFail, s₃) := by
    unfold CommitBlock commitFinalizeStep putFinalized
    simp [hcs, hq, hca, hq1, hfc, hpf]
  have h1 := (computeState_ok_state env s header st s₁ hcs).1
  have h2 := (commitQualityStep_state env s₁ header st).1.1
  rw [hq] at h2
  have h3 : s₃.finalized = s₂.finalized := by
    have hst := (findCheckpointByQuality_state env s₂ (st.quality - 1)
      (Finalized s₂) header.id).1
    rw [hfc] at hst
    exact hst
  rw [hrun]
  exact ⟨rfl, by simp only [Finalized]; rw [h3, h2, h1]⟩

set_option maxRecDepth 8192 in
/-- Witness for C2: on the concrete committing run, injecting a failure of the
durable finalized write makes `CommitBlock` return the error while `Finalized`
still answers the old checkpoint. -/
theorem commitBlock_finalized_put_fail_witness :
    (CommitBlock c2Env c3State c3Header false).1 = some .ioFail ∧
      Finalized (CommitBlock c2Env c3State c3Header false).2 = Finalized c3State := by
  have hfc : findCheckpointByQuality c2Env c2Mid 1 (Finalized c2Mid) ⟨767, 7⟩ =
      (.ok ⟨512, 9⟩, c2SearchEnd) := by
    simp [findCheckpointByQuality, sortSearchE, searchLoopE, fcbqGet, fcbqProbe, getQuality,
      loadQuality, alookup, nCandidates, searchStartOf, getStorePoint, getCheckPoint,
      CheckpointInterval, wrap32, sub32, Finalized, blockNumber, emptyState, envBase, c3Env,
      c2Env, c2Mid, c2SearchEnd, Except.map]
  exact commitBlock_finalized_put_fail c2Env c3State c3Header false
    ⟨2, true, some ⟨767, 7⟩⟩ c3State c2Mid c2SearchEnd ⟨512, 9⟩ rfl rfl rfl (by decide) hfc rfl

/-- Claim C3: the finalized pointer is monotone: a successful `CommitBlock`
never lowers the block number answered by `Finalized`, because every
replacement id is a checkpoint found by searching forward from the current
finalized block number (stated for a repository returning ids at the requested
numbers, in the wrap-free regime of the `uint32` index arithmetic). -/
theorem finalized_monotone (env : Env) (s : EngineState) (header : Header)
    (isPacking : Bool) (s' : EngineState)
    (hrun : CommitBlock env s header isPacking = (none, s'))
    (hsound : ∀ tip n id, env.getBlockID tip n = .ok id → blockNumber id = n)
    (hnw : searchStartOf env (Finalized s) ≤ blockNumber header.id + 1)
    (hp32 : blockNumber header.id + 1 < 2 ^ 32) :
    blockNumber (Finalized s) ≤ blockNumber (Finalized s') := by
  unfold CommitBlock at hrun
  split at hrun
  · cases hrun
    exact Nat.le_refl _
  · rename_i st s₁ hcs
    split at hrun
    · cases hrun
    · rename_i s₂ hq
      have hfin1 : s₁.finalized = s.finalized := (computeState_ok_state env s header st s₁ hcs).1
      have hfin2 : s₂.finalized = s₁.finalized := by
        have := (commitQualityStep_state env s₁ header st).1.1
        rw [hq] at this
        exact this
      split at hrun
      · cases hrun
      · rename_i s₃ hfz
        have hfin3 : blockNumber s₂.finalized ≤ blockNumber s₃.finalized := by
          have := commitFinalizeStep_finalized_ge env s₂ header st hsound
            (by rw [show Finalized s₂ = Finalized s from by simp [Finalized, hfin2, hfin1]]
                exact hnw)
            hp32
          rw [hfz] at this
          exact this
        have hfin4 : s'.finalized = s₃.finalized := by
          have := (commitPackStep_state env s₃ header st isPacking).1
          rw [hrun] at this
          exact this
        simp only [Finalized]
        rw [hfin4]
        have : blockNumber s.finalized = blockNumber s₂.finalized := by rw [hfin2, hfin1]
        omega

/-- Witness for C3: the concrete committing run succeeds and advances the
finalized pointer from block 256 to block 512. -/
theorem finalized_monotone_witness :
    CommitBlock c3Env c3State c3Header false = (none, c3Final) ∧
      blockNumber (Finalized c3State) ≤ blockNumber (Finalized c3Final) := by
  have hrun : CommitBlock c3Env c3State c3Header false = (none, c3Final) := by
    simp [CommitBlock, computeState, commitQualityStep, saveQuality, commitFinalizeStep,
      findCheckpointByQuality, putFinalized, commitPackStep, sortSearchE, searchLoopE,
      fcbqGet, fcbqProbe, getQuality, loadQuality, alookup, nCandidates, searchStartOf, getStorePoint,
      getCheckPoint, CheckpointInterval, wrap32, sub32, Finalized, blockNumber, Header.number,
      emptyState, envBase, c3Env, c3State, c3Header, c3Final, Except.map]
  exact ⟨hrun, finalized_monotone c3Env c3State c3Header false c3Final hrun
    c3Env_getBlockID_sound (by decide) (by decide)⟩

/-- Claim C4: for every parent id whose computed BFT state has quality 0 (with
the casts ledger initialised and the parent's summary available), `GetVote`
returns the vote `COM` with no error.  The naked `return` of source line 536
yields the zero value of `block.Vote`, modelled from the spec as `COM`. -/
theorem getVote_zero_quality_com (env : Env) (s : EngineState) (parentID : Bytes32)
    (cs : List Cast) (sum : Summary) (st : BftState) (s₁ : EngineState)
    (hcasts : s.casts = some cs)
    (hsum : env.getBlockSummary parentID = .ok sum)
    (hst : computeState env s sum.header = .ok (st, s₁))
    (hq : st.quality = 0) :
    GetVote env s parentID = .ok Vote.COM := by
  unfold GetVote
  rw [hcasts]
  simp [hsum, hst, hq, Vote.zeroValue]

/-- Witness for C4: a concrete parent whose state computes to the zero state
receives vote `COM`. -/
theorem getVote_zero_quality_com_witness :
    GetVote c4Env (emptyState ⟨0, 0⟩) ⟨4, 0⟩ = .ok Vote.COM :=
  getVote_zero_quality_com c4Env (emptyState ⟨0, 0⟩) ⟨4, 0⟩ [] ⟨⟨⟨5, 0⟩, ⟨4, 0⟩⟩⟩
    zeroBftState (emptyState ⟨0, 0⟩) rfl rfl rfl rfl

/-- Claim C5: `Accepts(parent_id)` returns true exactly when the finalized
pointer has block number 0 (the genesis) or the repository confirms the branch
of `parent_id` contains the finalized block, and an error raised by the
ancestry check is returned unchanged. -/
theorem accepts_characterization (env : Env) (s : EngineState) (parentID : Bytes32) :
    (Accepts env s parentID = .ok true ↔
      blockNumber (Finalized s) = 0 ∨ env.hasBlock parentID (Finalized s) = .ok true) ∧
    (∀ e, blockNumber (Finalized s) ≠ 0 → env.hasBlock parentID (Finalized s) = .error e →
      Accepts env s parentID = .error e) := by
  unfold Accepts
  by_cases h0 : blockNumber (Finalized s) = 0
  · simp [h0]
  · cases hb : env.hasBlock parentID (Finalized s) with
    | error e => simp [h0, hb]
    | ok b => cases b <;> simp [h0, hb]

/-- Witness for C5: with a non-genesis finalized pointer, a repository error
from the ancestry check comes back unchanged. -/
theorem accepts_characterization_witness :
    Accepts c5Env (emptyState ⟨7, 0⟩) ⟨9, 9⟩ = .error .ioFail :=
  (accepts_characterization c5Env (emptyState ⟨7, 0⟩) ⟨9, 9⟩).2 .ioFail (by decide) rfl

/-- Claim C6: under monotone non-decreasing stored qualities at the candidate
store points (wrap-free regime, all candidate reads succeeding),
`findCheckpointByQuality` returns the repository's checkpoint id at
`search_start + i0 * CHECKPOINT_INTERVAL` for the smallest candidate index
`i0` whose store-point quality reaches the target; it errs with
`checkpointNotFound` when no candidate reaches the target and with
`qualityNotEqual` when the quality at that smallest index is not exactly the
target. -/
theorem findCheckpointByQuality_binary_search
    (env : Env) (s : EngineState) (target : Nat) (finalized parentID : Bytes32)
    (q : Nat → Nat) (ids : Nat → Bytes32)
    (hnw : searchStartOf env finalized ≤ blockNumber parentID + 1)
    (hp32 : blockNumber parentID + 1 < 2 ^ 32)
    (hget : ∀ i, i < nCandidates env finalized parentID →
      env.getBlockID parentID
          (getStorePoint (searchStartOf env finalized + i * CheckpointInterval)) = .ok (ids i))
    (hqv : ∀ i, i < nCandidates env finalized parentID →
      (getQuality s (ids i)).1 = .ok (q i))
    (hmono : ∀ i j, i ≤ j → j < nCandidates env finalized parentID → q i ≤ q j) :
    ((∀ i, i < nCandidates env finalized parentID → q i < target) →
        (findCheckpointByQuality env s target finalized parentID).1 =
          .error .checkpointNotFound) ∧
    (∀ i₀, i₀ < nCandidates env finalized parentID → target ≤ q i₀ →
        (∀ k, k < i₀ → q k < target) →
        ((q i₀ = target →
            (findCheckpointByQuality env s target finalized parentID).1 =
              env.getBlockID parentID
                (searchStartOf env finalized + i₀ * CheckpointInterval)) ∧
         (q i₀ ≠ target →
            (findCheckpointByQuality env s target finalized parentID).1 =
              .error .qualityNotEqual))) := by
  have hn : nCandidates env finalized parentID =
      (blockNumber parentID + 1 - searchStartOf env finalized) / CheckpointInterval :=
    nCandidates_eq env finalized parentID hnw hp32
  have hprobeVal : ∀ i t, memoExt s t → i < nCandidates env finalized parentID →
      (fcbqGet env (searchStartOf env finalized) parentID i t).1 = .ok (q i) := by
    intro i t hmemo hi
    have hw := candidate_no_wrap (searchStartOf env finalized) (blockNumber parentID) i hnw hp32
      (hn ▸ hi)
    unfold fcbqGet
    rw [hw.1, hget i hi]
    show (getQuality t (ids i)).1 = .ok (q i)
    rw [getQuality_fst_stable s t (ids i) hmemo]
    exact hqv i hi
  by_cases hn0 : nCandidates env finalized parentID = 0
  · constructor
    · intro _
      simp only [findCheckpointByQuality, sortSearchE, hn0]
      rw [searchLoopE.eq_def]
      simp
    · intro i₀ hi₀
      omega
  · have hpos : 0 < nCandidates env finalized parentID := Nat.pos_of_ne_zero hn0
    have hminlt : ∀ k : Nat, min k (nCandidates env finalized parentID - 1) <
        nCandidates env finalized parentID := by
      intro k
      omega
    have hmonoP : ∀ a b, a ≤ b →
        (decide (target ≤ q (min a (nCandidates env finalized parentID - 1))) = true) →
        (decide (target ≤ q (min b (nCandidates env finalized parentID - 1))) = true) := by
      intro a b hab hpa
      simp only [decide_eq_true_eq] at *
      exact le_trans hpa (hmono _ _ (by omega) (hminlt b))
    have hF : ∀ k u, memoExt s u → 0 ≤ k → k < nCandidates env finalized parentID →
        (fcbqProbe env target (searchStartOf env finalized) parentID k u).1 =
            .ok (decide (target ≤ q (min k (nCandidates env finalized parentID - 1)))) ∧
          memoExt s (fcbqProbe env target (searchStartOf env finalized) parentID k u).2 := by
      intro k u hu _ hk
      have hmin : min k (nCandidates env finalized parentID - 1) = k := by omega
      constructor
      · rw [(fcbqProbe_eq env target (searchStartOf env finalized) parentID k u).1,
          hprobeVal k u hu hk, hmin]
        rfl
      · rw [(fcbqProbe_eq env target (searchStartOf env finalized) parentID k u).2]
        exact fcbqGet_memoExt env (searchStartOf env finalized) parentID k s u hu
    obtain ⟨r, t', hr, hInv, hr0, hrn, hrlow, hrhigh⟩ :=
      searchLoopE_found (fcbqProbe env target (searchStartOf env finalized) parentID)
        (fun k => decide (target ≤ q (min k (nCandidates env finalized parentID - 1))))
        (memoExt s) hmonoP 0 (nCandidates env finalized parentID) s (Nat.zero_le _)
        hF (memoExt_refl s)
    constructor
    · intro hall
      have hreq : r = nCandidates env finalized parentID := by
        by_contra hne
        have hrlt : r < nCandidates env finalized parentID := by omega
        have := hrhigh hrlt
        simp only [decide_eq_true_eq] at this
        exact absurd this (by have := hall _ (hminlt r); omega)
      simp only [findCheckpointByQuality, sortSearchE]
      simp only [hr]
      simp [hreq]
    · intro i₀ hi₀ htar hleast
      have hri : r = i₀ := by
        by_contra hne
        rcases Nat.lt_or_ge r i₀ with hlt | hgt
        · have hrlt : r < nCandidates env finalized parentID := by omega
          have := hrhigh hrlt
          simp only [decide_eq_true_eq] at this
          have hminr : min r (nCandidates env finalized parentID - 1) = r := by omega
          rw [hminr] at this
          exact absurd this (by have := hleast r hlt; omega)
        · have hi0lt : i₀ < r := by omega
          have := hrlow i₀ (Nat.zero_le _) hi0lt
          simp only [decide_eq_false_iff_not] at this
          have hmini : min i₀ (nCandidates env finalized parentID - 1) = i₀ := by omega
          rw [hmini] at this
          exact this htar
      subst hri
      have hw := candidate_no_wrap (searchStartOf env finalized) (blockNumber parentID) r
        hnw hp32 (hn ▸ hi₀)
      have hval := hprobeVal r t' hInv hi₀
      have heta : fcbqGet env (searchStartOf env finalized) parentID r t' =
          (.ok (q r), (fcbqGet env (searchStartOf env finalized) parentID r t').2) := by
        rw [← hval]
      have hne' : ¬ r = nCandidates env finalized parentID := by omega
      constructor
      · intro heq
        simp only [findCheckpointByQuality, sortSearchE]
        simp only [hr]
        rw [if_neg hne']
        rw [heta]
        simp only [ne_eq, heq, not_true_eq_false, if_false, ite_false]
        rw [hw.1]
      · intro hne
        simp only [findCheckpointByQuality, sortSearchE]
        simp only [hr]
        rw [if_neg hne']
        rw [heta]
        simp [hne]

/-- Witness for C6: on a two-round branch with stored qualities 1 then 2,
searching for quality 2 returns the checkpoint id of the second round. -/
theorem findCheckpointByQuality_binary_search_witness :
    (findCheckpointByQuality c6Env c6State 2 ⟨0, 0⟩ ⟨511, 5⟩).1 = .ok ⟨256, 0⟩ := by
  have hn : nCandidates c6Env ⟨0, 0⟩ ⟨511, 5⟩ = 2 := rfl
  have h := (findCheckpointByQuality_binary_search c6Env c6State 2 ⟨0, 0⟩ ⟨511, 5⟩
      (fun i => i + 1) (fun i => if i = 0 then ⟨255, 0⟩ else ⟨511, 0⟩)
      (by decide) (by decide)
      (by intro i hi; rw [hn] at hi; interval_cases i <;> rfl)
      (by intro i hi; rw [hn] at hi; interval_cases i <;> rfl)
      (by intro i j hij hj; exact Nat.succ_le_succ hij)).2 1
      (by rw [hn]; omega) (by decide)
      (by intro k hk; interval_cases k <;> decide)
  exact h.1 rfl

/-- Claim C7: when the computed qualities of the new header and of the current
best header differ, `Select` answers true exactly when the new quality is
strictly greater; only on equal qualities does it defer to the block layer's
total order `BetterThan`. -/
theorem select_prefers_higher_quality (env : Env) (s : EngineState) (header : Header)
    (stN : BftState) (s₁ : EngineState) (stB : BftState) (s₂ : EngineState)
    (hn : computeState env s header = .ok (stN, s₁))
    (hb : computeState env s₁ env.bestHeader = .ok (stB, s₂)) :
    Select env s header =
      .ok (if stN.quality = stB.quality then env.betterThan header env.bestHeader
           else decide (stB.quality < stN.quality)) := by
  unfold Select
  simp only [hn, hb]
  by_cases h : stN.quality = stB.quality
  · simp [h]
  · simp [h]

/-- Witness for C7: a new header of quality 3 beats a best header of quality 2
regardless of the total order. -/
theorem select_prefers_higher_quality_witness :
    Select c7Env c7State ⟨⟨9, 1⟩, ⟨8, 0⟩⟩ =
      .ok (if (3 : Nat) = 2 then c7Env.betterThan ⟨⟨9, 1⟩, ⟨8, 0⟩⟩ c7Env.bestHeader
           else decide (2 < 3)) :=
  select_prefers_higher_quality c7Env c7State ⟨⟨9, 1⟩, ⟨8, 0⟩⟩ ⟨3, true, none⟩ c7State
    ⟨2, false, none⟩ c7State rfl rfl

/-- Claim C8: `CommitBlock` persists a quality entry for the header's id
exactly when the header's number is the store point of its round (number mod
`CHECKPOINT_INTERVAL` is `CHECKPOINT_INTERVAL - 1`), storing the computed
quality, and the quality LRU is updated only after the durable put: on a put
failure the call errs with both quality locations unchanged; on success the
entry is durably consed and found in the LRU, which afterwards changes only by
the finalize-step search memoizing qualities already durably stored; away from
a store point nothing is durably written and the LRU likewise changes only by
that memoization. -/
theorem commitBlock_quality_persistence (env : Env) (s : EngineState) (header : Header)
    (isPacking : Bool) (st : BftState) (s₁ : EngineState)
    (hcs : computeState env s header = .ok (st, s₁)) :
    (getStorePoint header.number = header.number ↔
        header.number % CheckpointInterval = CheckpointInterval - 1) ∧
    (getStorePoint header.number = header.number →
      (env.failSaveQuality header.id st.quality = true →
        CommitBlock env s header isPacking = (some .ioFail, s₁)) ∧
      (env.failSaveQuality header.id st.quality = false →
        (CommitBlock env s header isPacking).2.dataQuality
            = (header.id, st.quality) :: s₁.dataQuality ∧
          (commitQualityStep env s₁ header st).2.qualityCache
            = (header.id, st.quality) :: s₁.qualityCache ∧
          alookup (CommitBlock env s header isPacking).2.qualityCache header.id
            = some st.quality ∧
          memoExt (commitQualityStep env s₁ header st).2
            (CommitBlock env s header isPacking).2)) ∧
    (getStorePoint header.number ≠ header.number →
      (CommitBlock env s header isPacking).2.dataQuality = s₁.dataQuality ∧
        memoExt s₁ (CommitBlock env s header isPacking).2) := by
  refine ⟨?_, fun hsp => ⟨fun hfail => ?_, fun hfail => ?_⟩, fun hsp => ?_⟩
  · unfold getStorePoint getCheckPoint CheckpointInterval
    omega
  · unfold CommitBlock commitQualityStep saveQuality
    simp [hcs, hsp, hfail]
  · have hqd : (commitQualityStep env s₁ header st).2.dataQuality
        = (header.id, st.quality) :: s₁.dataQuality := by
      unfold commitQualityStep saveQuality
      simp [hsp, hfail]
    have hqc : (commitQualityStep env s₁ header st).2.qualityCache
        = (header.id, st.quality) :: s₁.qualityCache := by
      unfold commitQualityStep saveQuality
      simp [hsp, hfail]
    have h := commitBlock_quality_after env s header isPacking st s₁ hcs
    refine ⟨h.1.trans hqd, hqc, ?_, h.2⟩
    exact memoExt_cache_stable _ _ h.2 header.id st.quality (by rw [hqc]; simp [alookup])
  · have hstep : commitQualityStep env s₁ header st = (none, s₁) := by
      unfold commitQualityStep
      simp [hsp]
    have h := commitBlock_quality_after env s header isPacking st s₁ hcs
    rw [hstep] at h
    exact ⟨h.1, h.2⟩

/-- Witness for C8: committing the store-point header 255 with quality 1 and a
succeeding durable put leaves the entry durably stored and found in the
quality LRU. -/
theorem commitBlock_quality_persistence_witness :
    (CommitBlock envBase c8State c8Header false).2.dataQuality = [(⟨255, 3⟩, 1)] ∧
      alookup (CommitBlock envBase c8State c8Header false).2.qualityCache ⟨255, 3⟩
        = some 1 := by
  have h := ((commitBlock_quality_persistence envBase c8State c8Header false ⟨1, true, none⟩
    c8State rfl).2.1 (by decide)).2 rfl
  exact ⟨h.1, h.2.2.1⟩

/-- Claim C9 (amended): for every header at block number 0 or below the
finality activation number whose state is not already cached, `computeState`
returns the zero BFT state and leaves the engine state — in particular the
state cache — unchanged; contrary to the claim, the zero state is not inserted
into the cache. -/
theorem computeState_pre_activation_zero (env : Env) (s : EngineState) (header : Header)
    (hmiss : alookup s.stateCache header.id = none)
    (hlow : header.number = 0 ∨ header.number < env.finality) :
    computeState env s header = .ok (zeroBftState, s) := by
  unfold computeState
  rw [hmiss]
  simp [hlow]

/-- Witness for amended C9: a concrete pre-activation header computes to the
zero state with the engine state returned unchanged. -/
theorem computeState_pre_activation_zero_witness :
    computeState c9Env (emptyState ⟨1, 1⟩) c9Header = .ok (zeroBftState, emptyState ⟨1, 1⟩) :=
  computeState_pre_activation_zero c9Env (emptyState ⟨1, 1⟩) c9Header rfl (Or.inr (by decide))

/-- Counterexample to C9 as stated: at a concrete pre-activation header,
`computeState` returns the zero state but the state cache of the returned
engine state does not contain the header's id, refuting "and caches it in the
state cache under the header's id". -/
theorem computeState_pre_activation_not_cached :
    computeState c9Env (emptyState ⟨0, 0⟩) c9Header = .ok (zeroBftState, emptyState ⟨0, 0⟩) ∧
      alookup (emptyState ⟨0, 0⟩).stateCache c9Header.id = none :=
  ⟨rfl, rfl⟩

/-- Claim C10: when the finalized pointer has block number 0 the ancestry
check is skipped, so `Accepts` answers true with no error for every parent id
and every repository behaviour — in particular for ids the repository does not
know. -/
theorem accepts_skips_ancestry_at_genesis (env : Env) (s : EngineState)
    (parentID : Bytes32) (h0 : blockNumber (Finalized s) = 0) :
    Accepts env s parentID = .ok true := by
  unfold Accepts
  simp [h0]

/-- Witness for C10: with the genesis finalized, a parent id on which every
repository request fails is still accepted. -/
theorem accepts_skips_ancestry_at_genesis_witness :
    Accepts envBase (emptyState ⟨0, 5⟩) ⟨1234, 0⟩ = .ok true :=
  accepts_skips_ancestry_at_genesis envBase (emptyState ⟨0, 5⟩) ⟨1234, 0⟩ rfl
